import Mathlib

/-!
Verification of the 2048 move/merge engine in `src/components/Game2048.tsx`.

The board is a JavaScript `number[][]`; we embed it as `List (List Nat)`.
Randomness (`Math.random()`) is made explicit: the index drawn for the
empty-cell pick becomes a `Nat` parameter reduced modulo the number of
empty cells, and the 90/10 value draw becomes a `Bool` (`true` ↦ 2,
`false` ↦ 4).  Stateful React code (`handleMove`, `newGame`) is embedded
as explicit state passing over a `GState` record.
-/

namespace Game2048

/-- `GRID_SIZE` from Game2048.tsx line 10. -/
def GRID_SIZE : Nat := 4

abbrev Board := List (List Nat)

/-- JS `board[i][j]` for in-range indices (out of range would be
`undefined` in JS; every use below is in range on 4×4 boards). -/
def cell (b : Board) (i j : Nat) : Nat := (b.getD i []).getD j 0

/-- The shape every board in the program has: 4 rows of 4 cells. -/
def isBoard4 (b : Board) : Prop := b.length = 4 ∧ ∀ r ∈ b, r.length = 4

instance (b : Board) : Decidable (isBoard4 b) := by
  unfold isBoard4; infer_instance

/-- The `emptyCells` list built by `addRandomTile` (lines 57-62):
all `(i, j)` with `board[i][j] === 0`, row-major. -/
def emptyCells (b : Board) : List (Nat × Nat) :=
  (List.range b.length).flatMap (fun i =>
    (List.range (b.getD i []).length).filterMap (fun j =>
      if (b.getD i []).getD j 0 = 0 then some (i, j) else none))

/-- The in-place write `board[x][y] = v` (line 66). -/
def setCell (b : Board) (x y v : Nat) : Board :=
  b.set x ((b.getD x []).set y v)

/-- `Math.random() < 0.9 ? 2 : 4` (line 66), with the draw made explicit. -/
def spawnValue (isTwo : Bool) : Nat := if isTwo then 2 else 4

/-- The deep copy `board.map((row) => [...row])` (line 68). -/
def deepCopy (b : Board) : Board := b.map (fun row => row.map (fun v => v))

/-- `addRandomTile` (lines 56-69): the board VALUE the function returns.
`k` is the random draw for the empty-cell index, `isTwo` the value draw. -/
def addRandomTile (b : Board) (k : Nat) (isTwo : Bool) : Board :=
  let ec := emptyCells b
  if ec.length = 0 then b
  else
    let p := ec.getD (k % ec.length) (0, 0)
    deepCopy (setCell b p.1 p.2 (spawnValue isTwo))

/-- The contents of the CALLER's array after `addRandomTile` returns:
line 66 assigns `board[x][y]` in place before the copy on line 68, so the
caller's array ends up mutated whenever an empty cell exists. -/
def addRandomTile_inputAfter (b : Board) (k : Nat) (isTwo : Bool) : Board :=
  let ec := emptyCells b
  if ec.length = 0 then b
  else
    let p := ec.getD (k % ec.length) (0, 0)
    setCell b p.1 p.2 (spawnValue isTwo)

/-- `arraysEqual` (lines 74-81): loops over `a`'s index ranges; a lookup
`b[i][j]` that falls off `b` is `undefined` in JS and compares unequal to
any number, which the `Option` encoding captures. -/
def arraysEqual (a b : Board) : Bool :=
  (List.range a.length).all (fun i =>
    (List.range (a.getD i []).length).all (fun j =>
      ((b.get? i).bind (fun row => row.get? j)) == some ((a.getD i []).getD j 0)))

/-- `transpose` (lines 86-87): `board[0].map((_, i) => board.map((row) => row[i]))`. -/
def transpose (b : Board) : Board :=
  (List.range (b.getD 0 []).length).map (fun i => b.map (fun row => row.getD i 0))

/-- The merge loop of `moveRowLeft` (lines 96-103): scan left to right on
the compacted row; on a merge write the doubled value, zero the partner,
and skip past both (`i++` twice) — single pass, no cascading. -/
def mergePass : List Nat → List Nat × Nat
  | [] => ([], 0)
  | [a] => ([a], 0)
  | a :: b :: rest =>
    if a = b then
      let r := mergePass rest
      (2 * a :: 0 :: r.1, r.2 + 2 * a)
    else
      let r := mergePass (b :: rest)
      (a :: r.1, r.2)

/-- `moveRowLeft` (lines 93-110): compact, merge pass, compact the zeros
the merges introduced, right-pad with zeros to `GRID_SIZE`. -/
def moveRowLeft (row : List Nat) : List Nat × Nat :=
  let compacted := row.filter (fun v => v != 0)
  let m := mergePass compacted
  let merged := m.1.filter (fun v => v != 0)
  (merged ++ List.replicate (GRID_SIZE - merged.length) 0, m.2)

/-- `moveLeft` (lines 116-127). -/
def moveLeft (b : Board) : Board × Nat :=
  let results := b.map moveRowLeft
  (results.map Prod.fst, (results.map Prod.snd).sum)

/-- `moveRight` (lines 132-144): reverse each row, move left, reverse back. -/
def moveRight (b : Board) : Board × Nat :=
  let results := b.map (fun r => moveRowLeft r.reverse)
  (results.map (fun p => p.1.reverse), (results.map Prod.snd).sum)

/-- `moveUp` (lines 149-155). -/
def moveUp (b : Board) : Board × Nat :=
  let m := moveLeft (transpose b)
  (transpose m.1, m.2)

/-- `moveDown` (lines 160-166). -/
def moveDown (b : Board) : Board × Nat :=
  let m := moveRight (transpose b)
  (transpose m.1, m.2)

inductive Dir
  | up | down | left | right
deriving DecidableEq

/-- The direction dispatch of `handleMove` (lines 265-280). -/
def moveDir : Dir → Board → Board × Nat
  | .up => moveUp
  | .down => moveDown
  | .left => moveLeft
  | .right => moveRight

/-- `isGameOver` (lines 171-186): false on any empty cell, else false on
any horizontally or vertically adjacent equal pair, else true. -/
def isGameOver (b : Board) : Bool :=
  if (List.range GRID_SIZE).any (fun i => (List.range GRID_SIZE).any (fun j =>
      cell b i j == 0)) then false
  else if (List.range GRID_SIZE).any (fun i => (List.range GRID_SIZE).any (fun j =>
      (decide (j < GRID_SIZE - 1) && (cell b i j == cell b i (j + 1))) ||
      (decide (i < GRID_SIZE - 1) && (cell b i j == cell b (i + 1) j)))) then false
  else true

/-- The all-zero board built by `getInitialBoard` (lines 46-48). -/
def emptyBoard : Board := List.replicate GRID_SIZE (List.replicate GRID_SIZE 0)

/-- `getInitialBoard` (lines 45-50): two spawns on the zero board. -/
def getInitialBoard (k1 k2 : Nat) (t1 t2 : Bool) : Board :=
  addRandomTile (addRandomTile emptyBoard k1 t1) k2 t2

/-- The React state of `CanvasGame` that the controller logic touches. -/
structure GState where
  board : Board
  score : Nat
  bestScore : Nat
  gameOver : Bool
deriving DecidableEq

/-- `handleMove` (lines 258-296) as a state transformer; the `Bool`
records whether `addRandomTile` was invoked (a spawn happened). -/
def handleMove (s : GState) (d : Dir) (k : Nat) (t : Bool) : GState × Bool :=
  if s.gameOver then (s, false)
  else
    let mr := moveDir d s.board
    if arraysEqual s.board mr.1 then (s, false)
    else
      let boardWithNewTile := addRandomTile mr.1 k t
      let newScore := s.score + mr.2
      ({ board := boardWithNewTile,
         score := newScore,
         bestScore := if newScore > s.bestScore then newScore else s.bestScore,
         gameOver := if isGameOver boardWithNewTile then true else s.gameOver },
       true)

/-- `newGame` (lines 327-331): fresh board, score 0, gameOver cleared;
`bestScore` is not touched. -/
def newGame (s : GState) (k1 k2 : Nat) (t1 t2 : Bool) : GState :=
  { board := getInitialBoard k1 k2 t1 t2,
    score := 0,
    bestScore := s.bestScore,
    gameOver := false }

/-- External events driving the controller. -/
inductive Event
  | move (d : Dir) (k : Nat) (t : Bool)
  | reset (k1 k2 : Nat) (t1 t2 : Bool)

def step (s : GState) : Event → GState
  | .move d k t => (handleMove s d k t).1
  | .reset k1 k2 t1 t2 => newGame s k1 k2 t1 t2

def runEvents (s : GState) : List Event → GState
  | [] => s
  | e :: es => runEvents (step s e) es

/-- Board-transforming operations for the reachability invariant. -/
inductive Op
  | move (d : Dir)
  | spawn (k : Nat) (t : Bool)

def applyOp (b : Board) : Op → Board
  | .move d => (moveDir d b).1
  | .spawn k t => addRandomTile b k t

def applyOps (b : Board) : List Op → Board
  | [] => b
  | o :: os => applyOps (applyOp b o) os

/-- Total of all tile values on the board. -/
def totalSum (b : Board) : Nat := (b.map List.sum).sum

/-- Spec-side: a cell value is 0 or a power of two that is at least 2. -/
def validCell (v : Nat) : Prop := v = 0 ∨ ∃ k, 1 ≤ k ∧ v = 2 ^ k

def validBoard (b : Board) : Prop := ∀ r ∈ b, ∀ v ∈ r, validCell v

/-- Spec-side: no cell of the 4×4 board is empty. -/
def noEmpty (b : Board) : Prop := ∀ i < 4, ∀ j < 4, cell b i j ≠ 0

/-- Spec-side: some two horizontally or vertically adjacent cells hold
equal non-zero values. -/
def hasAdjPair (b : Board) : Prop :=
  (∃ i < 4, ∃ j, j + 1 < 4 ∧ cell b i j ≠ 0 ∧ cell b i j = cell b i (j + 1)) ∨
  (∃ j < 4, ∃ i, i + 1 < 4 ∧ cell b i j ≠ 0 ∧ cell b i j = cell b (i + 1) j)

/-! ### List-shape helpers -/

theorem list_len4 {α : Type _} {l : List α} (h : l.length = 4) :
    ∃ a b c d, l = [a, b, c, d] := by
  cases l with
  | nil => simp at h
  | cons a t =>
    simp only [List.length_cons, Nat.succ_inj] at h
    obtain ⟨b, c, d, rfl⟩ := List.length_eq_three.mp h
    exact ⟨a, b, c, d, rfl⟩

theorem board4_cases {b : Board} (h : isBoard4 b) :
    ∃ x00 x01 x02 x03 x10 x11 x12 x13 x20 x21 x22 x23 x30 x31 x32 x33,
      b = [[x00, x01, x02, x03], [x10, x11, x12, x13],
           [x20, x21, x22, x23], [x30, x31, x32, x33]] := by
  obtain ⟨hlen, hrow⟩ := h
  obtain ⟨r0, r1, r2, r3, rfl⟩ := list_len4 hlen
  obtain ⟨a0, a1, a2, a3, h0⟩ := list_len4 (hrow r0 (by simp))
  obtain ⟨b0, b1, b2, b3, h1⟩ := list_len4 (hrow r1 (by simp))
  obtain ⟨c0, c1, c2, c3, h2⟩ := list_len4 (hrow r2 (by simp))
  obtain ⟨d0, d1, d2, d3, h3⟩ := list_len4 (hrow r3 (by simp))
  subst h0 h1 h2 h3
  exact ⟨a0, a1, a2, a3, b0, b1, b2, b3, c0, c1, c2, c3, d0, d1, d2, d3, rfl⟩

theorem getD_set {α : Type _} (l : List α) (n m : Nat) (a d : α) :
    (l.set n a).getD m d = if n = m ∧ n < l.length then a else l.getD m d := by
  rw [List.getD_eq_getElem?_getD, List.getD_eq_getElem?_getD, List.getElem?_set]
  by_cases h1 : n = m
  · subst h1
    by_cases h2 : n < l.length
    · simp [h2]
    · simp [h2, List.getElem?_eq_none (Nat.le_of_not_lt h2)]
  · simp [h1]

theorem cell_setCell (b : Board) (x y v i j : Nat) :
    cell (setCell b x y v) i j =
      if x = i ∧ y = j ∧ x < b.length ∧ y < (b.getD x []).length then v
      else cell b i j := by
  unfold cell setCell
  rw [getD_set]
  by_cases hx : x = i
  · subst hx
    by_cases hxl : x < b.length
    · rw [if_pos ⟨rfl, hxl⟩, getD_set]
      by_cases hy : y = j
      · subst hy
        by_cases hyl : y < (List.getD b x []).length
        · rw [if_pos ⟨rfl, hyl⟩, if_pos ⟨rfl, rfl, hxl, hyl⟩]
        · rw [if_neg (fun hc => hyl hc.2), if_neg (fun hc => hyl hc.2.2.2)]
      · rw [if_neg (fun hc => hy hc.1), if_neg (fun hc => hy hc.2.1)]
    · rw [if_neg (fun hc => hxl hc.2), if_neg (fun hc => hxl hc.2.2.1)]
  · rw [if_neg (fun hc => hx hc.1), if_neg (fun hc => hx hc.1)]

theorem mem_emptyCells {b : Board} {i j : Nat} :
    (i, j) ∈ emptyCells b ↔
      i < b.length ∧ j < (b.getD i []).length ∧ (b.getD i []).getD j 0 = 0 := by
  unfold emptyCells
  simp only [List.mem_flatMap, List.mem_filterMap, List.mem_range]
  constructor
  · rintro ⟨i', hi', j', hj', hsome⟩
    split at hsome
    · rename_i h0
      simp only [Option.some.injEq, Prod.mk.injEq] at hsome
      obtain ⟨rfl, rfl⟩ := hsome
      exact ⟨hi', hj', h0⟩
    · cases hsome
  · rintro ⟨hi, hj, h0⟩
    exact ⟨i, hi, j, hj, by rw [if_pos h0]⟩

/-! ### Mass and length lemmas for the merge engine -/

theorem sum_filter_nz (l : List Nat) : (l.filter (fun v => v != 0)).sum = l.sum := by
  induction l with
  | nil => rfl
  | cons a t ih =>
    by_cases h : a = 0
    · subst h; simp [List.filter_cons, ih]
    · simp [List.filter_cons, h, ih]

theorem mergePass_sum : ∀ l : List Nat, (mergePass l).1.sum = l.sum
  | [] => rfl
  | [_] => rfl
  | a :: b :: rest => by
    by_cases h : a = b
    · subst h
      simp only [mergePass, eq_self_iff_true, if_true, List.sum_cons,
        mergePass_sum rest]
      omega
    · simp only [mergePass, if_neg h, List.sum_cons, mergePass_sum (b :: rest)]

theorem mergePass_length : ∀ l : List Nat, (mergePass l).1.length = l.length
  | [] => rfl
  | [_] => rfl
  | a :: b :: rest => by
    by_cases h : a = b
    · simp [mergePass, h, mergePass_length rest]
    · simp [mergePass, h, mergePass_length (b :: rest)]

theorem moveRowLeft_sum (row : List Nat) : (moveRowLeft row).1.sum = row.sum := by
  unfold moveRowLeft
  simp only [List.sum_append, List.sum_replicate, smul_zero, add_zero]
  rw [sum_filter_nz, mergePass_sum, sum_filter_nz]

theorem moveRowLeft_length (row : List Nat) (h : row.length ≤ 4) :
    (moveRowLeft row).1.length = 4 := by
  unfold moveRowLeft
  simp only [List.length_append, List.length_replicate]
  have h1 : ((mergePass (row.filter (fun v => v != 0))).1.filter
      (fun v => v != 0)).length ≤ 4 := by
    calc ((mergePass (row.filter (fun v => v != 0))).1.filter
        (fun v => v != 0)).length
        ≤ (mergePass (row.filter (fun v => v != 0))).1.length :=
          List.length_filter_le _ _
      _ = (row.filter (fun v => v != 0)).length := mergePass_length _
      _ ≤ row.length := List.length_filter_le _ _
      _ ≤ 4 := h
  unfold GRID_SIZE
  omega

theorem moveRowLeft_score_sum (row : List Nat) :
    (moveRowLeft row).2 = (mergePass (row.filter (fun v => v != 0))).2 := rfl

/-! ### Board-level mass and shape lemmas -/

theorem moveLeft_boards (b : Board) :
    (moveLeft b).1 = b.map (fun r => (moveRowLeft r).1) := by
  unfold moveLeft
  simp [List.map_map, Function.comp]

theorem moveRight_boards (b : Board) :
    (moveRight b).1 = b.map (fun r => (moveRowLeft r.reverse).1.reverse) := by
  unfold moveRight
  simp [List.map_map, Function.comp]

theorem moveLeft_sum (b : Board) : totalSum (moveLeft b).1 = totalSum b := by
  rw [moveLeft_boards]
  unfold totalSum
  rw [List.map_map]
  congr 1
  apply List.map_congr_left
  intro r _
  exact moveRowLeft_sum r

theorem moveRight_sum (b : Board) : totalSum (moveRight b).1 = totalSum b := by
  rw [moveRight_boards]
  unfold totalSum
  rw [List.map_map]
  congr 1
  apply List.map_congr_left
  intro r _
  simp only [Function.comp_apply, List.sum_reverse]
  rw [moveRowLeft_sum, List.sum_reverse]

theorem transpose_sum {b : Board} (h : isBoard4 b) :
    totalSum (transpose b) = totalSum b := by
  obtain ⟨x00, x01, x02, x03, x10, x11, x12, x13,
    x20, x21, x22, x23, x30, x31, x32, x33, rfl⟩ := board4_cases h
  show totalSum [[x00, x10, x20, x30], [x01, x11, x21, x31],
      [x02, x12, x22, x32], [x03, x13, x23, x33]] = _
  simp [totalSum]
  omega

theorem transpose_transpose {b : Board} (h : isBoard4 b) :
    transpose (transpose b) = b := by
  obtain ⟨x00, x01, x02, x03, x10, x11, x12, x13,
    x20, x21, x22, x23, x30, x31, x32, x33, rfl⟩ := board4_cases h
  rfl

theorem isBoard4_transpose {b : Board} (h : isBoard4 b) :
    isBoard4 (transpose b) := by
  obtain ⟨x00, x01, x02, x03, x10, x11, x12, x13,
    x20, x21, x22, x23, x30, x31, x32, x33, rfl⟩ := board4_cases h
  constructor
  · rfl
  · intro r hr
    show r.length = 4
    have : transpose [[x00, x01, x02, x03], [x10, x11, x12, x13],
        [x20, x21, x22, x23], [x30, x31, x32, x33]] =
        [[x00, x10, x20, x30], [x01, x11, x21, x31],
         [x02, x12, x22, x32], [x03, x13, x23, x33]] := rfl
    rw [this] at hr
    simp at hr
    rcases hr with h | h | h | h <;> subst h <;> rfl

theorem isBoard4_moveLeft {b : Board} (h : isBoard4 b) :
    isBoard4 (moveLeft b).1 := by
  rw [moveLeft_boards]
  constructor
  · simp [h.1]
  · intro r hr
    simp only [List.mem_map] at hr
    obtain ⟨r0, hr0, rfl⟩ := hr
    exact moveRowLeft_length r0 (le_of_eq (h.2 r0 hr0))

theorem isBoard4_moveRight {b : Board} (h : isBoard4 b) :
    isBoard4 (moveRight b).1 := by
  rw [moveRight_boards]
  constructor
  · simp [h.1]
  · intro r hr
    simp only [List.mem_map] at hr
    obtain ⟨r0, hr0, rfl⟩ := hr
    simp only [List.length_reverse]
    exact moveRowLeft_length r0.reverse (by simp [le_of_eq (h.2 r0 hr0)])

theorem isBoard4_moveDir {b : Board} (d : Dir) (h : isBoard4 b) :
    isBoard4 (moveDir d b).1 := by
  cases d with
  | left => exact isBoard4_moveLeft h
  | right => exact isBoard4_moveRight h
  | up => exact isBoard4_transpose (isBoard4_moveLeft (isBoard4_transpose h))
  | down => exact isBoard4_transpose (isBoard4_moveRight (isBoard4_transpose h))

theorem moveDir_sum {b : Board} (d : Dir) (h : isBoard4 b) :
    totalSum (moveDir d b).1 = totalSum b := by
  cases d with
  | left => exact moveLeft_sum b
  | right => exact moveRight_sum b
  | up =>
    show totalSum (transpose (moveLeft (transpose b)).1) = totalSum b
    rw [transpose_sum (isBoard4_moveLeft (isBoard4_transpose h)),
      moveLeft_sum, transpose_sum h]
  | down =>
    show totalSum (transpose (moveRight (transpose b)).1) = totalSum b
    rw [transpose_sum (isBoard4_moveRight (isBoard4_transpose h)),
      moveRight_sum, transpose_sum h]

/-! ### Spawn lemmas -/

theorem deepCopy_eq (b : Board) : deepCopy b = b := by
  unfold deepCopy
  simp

theorem getD_mem {α : Type _} (l : List α) (n : Nat) (d : α) (h : n < l.length) :
    l.getD n d ∈ l := by
  rw [List.getD_eq_getElem l d h]
  exact List.getElem_mem h

theorem sum_set_zero : ∀ (l : List Nat) (j v : Nat), j < l.length →
    l.getD j 0 = 0 → (l.set j v).sum = l.sum + v
  | [], j, v, hj, _ => by simp at hj
  | a :: t, 0, v, _, h0 => by
    simp only [List.getD_cons_zero] at h0
    simp [h0]
    omega
  | a :: t, j + 1, v, hj, h0 => by
    have ih := sum_set_zero t j v (by simpa using hj) (by simpa using h0)
    show (a :: t.set j v).sum = (a :: t).sum + v
    simp only [List.sum_cons, ih]
    omega

theorem totalSum_set : ∀ (b : Board) (x : Nat) (r : List Nat), x < b.length →
    totalSum (b.set x r) + (b.getD x []).sum = totalSum b + r.sum
  | [], x, r, hx => by simp at hx
  | a :: t, 0, r, _ => by
    simp only [List.getD_cons_zero]
    show totalSum (r :: t) + a.sum = totalSum (a :: t) + r.sum
    simp only [totalSum, List.map_cons, List.sum_cons]
    omega
  | a :: t, x + 1, r, hx => by
    have ih := totalSum_set t x r (by simpa using hx)
    show totalSum (a :: t.set x r) + (t.getD x []).sum = totalSum (a :: t) + r.sum
    simp only [totalSum, List.map_cons, List.sum_cons] at ih ⊢
    omega

theorem addRandomTile_full (b : Board) (k : Nat) (t : Bool)
    (h : emptyCells b = []) : addRandomTile b k t = b := by
  unfold addRandomTile
  simp [h]

theorem addRandomTile_pick (b : Board) (k : Nat) (t : Bool)
    (h : emptyCells b ≠ []) :
    ∃ p ∈ emptyCells b,
      p = (emptyCells b).getD (k % (emptyCells b).length) (0, 0) ∧
      addRandomTile b k t = setCell b p.1 p.2 (spawnValue t) := by
  have hlen : 0 < (emptyCells b).length := List.length_pos.mpr h
  have hk : k % (emptyCells b).length < (emptyCells b).length := Nat.mod_lt _ hlen
  refine ⟨(emptyCells b).getD (k % (emptyCells b).length) (0, 0),
    getD_mem _ _ _ hk, rfl, ?_⟩
  unfold addRandomTile
  rw [if_neg (by omega), deepCopy_eq]

theorem setCell_sum (b : Board) (x y v : Nat) (hx : x < b.length)
    (hy : y < (b.getD x []).length) (h0 : (b.getD x []).getD y 0 = 0) :
    totalSum (setCell b x y v) = totalSum b + v := by
  unfold setCell
  have h1 := totalSum_set b x ((b.getD x []).set y v) hx
  have h2 := sum_set_zero (b.getD x []) y v hy h0
  omega

theorem addRandomTile_sum (b : Board) (k : Nat) (t : Bool)
    (h : emptyCells b ≠ []) :
    totalSum (addRandomTile b k t) = totalSum b + spawnValue t := by
  obtain ⟨p, hp, _, heq⟩ := addRandomTile_pick b k t h
  obtain ⟨h1, h2, h3⟩ := mem_emptyCells.mp hp
  rw [heq, setCell_sum b p.1 p.2 (spawnValue t) h1 h2 h3]

/-! ### setCell shape lemmas -/

theorem setCell_length (b : Board) (x y v : Nat) :
    (setCell b x y v).length = b.length := List.length_set b x _

theorem setCell_row_length (b : Board) (x y v i : Nat) :
    ((setCell b x y v).getD i []).length = (b.getD i []).length := by
  unfold setCell
  rw [getD_set]
  split
  · rename_i hc
    rw [← hc.1, List.length_set]
  · rfl

/-! ### Concrete boards used in witnesses and counterexamples -/

def exBoard : Board := [[2, 2, 0, 0], [0, 0, 0, 0], [0, 0, 0, 0], [0, 0, 0, 0]]

def fullBoard : Board := [[2, 4, 2, 4], [4, 2, 4, 2], [2, 4, 2, 4], [4, 2, 4, 2]]

def noopBoard : Board := [[2, 4, 8, 16], [16, 8, 4, 2], [2, 4, 8, 16], [16, 8, 4, 2]]

def oneEmptyBoard : Board := [[2, 4, 2, 4], [4, 2, 4, 2], [2, 4, 2, 4], [4, 2, 4, 0]]

/-! ### Claim C1 -/

/-- Claim C1 counterexample: `addRandomTile` executes `board[x][y] = ...`
(line 66) on the caller's array before taking the deep copy, so on the
all-zero board with random index 0 and value draw 2 the caller's array
does not hold the cell values it held before the call. -/
theorem claim_C1_counterexample :
    addRandomTile_inputAfter emptyBoard 0 true ≠ emptyBoard := by decide

/-- Claim C1 amended: the four move functions perform no writes to their
argument (modelled purely: they only read it), and the board value
`addRandomTile` returns is a fresh deep copy; but `addRandomTile` writes
the spawned tile into the caller's array in place, so after the call the
input array holds exactly the returned board's cell values, and it holds
its prior values only when the board is full. -/
theorem claim_C1_amended :
    (∀ (b : Board) (k : Nat) (t : Bool),
      addRandomTile_inputAfter b k t = addRandomTile b k t) ∧
    (∀ (b : Board) (k : Nat) (t : Bool), emptyCells b = [] →
      addRandomTile_inputAfter b k t = b) := by
  constructor
  · intro b k t
    unfold addRandomTile_inputAfter addRandomTile
    by_cases h : (emptyCells b).length = 0
    · simp [h]
    · simp [h, deepCopy_eq]
  · intro b k t h
    unfold addRandomTile_inputAfter
    simp [h]

/-- Claim C1 amended, witnessed on the full board. -/
theorem claim_C1_amended_witness :
    emptyCells fullBoard = [] ∧
    addRandomTile_inputAfter fullBoard 0 true = fullBoard :=
  ⟨by decide, claim_C1_amended.2 fullBoard 0 true (by decide)⟩

/-! ### Claim C2 -/

/-- Claim C2: `moveRowLeft` compacts zeros, makes one left-to-right
non-cascading merge pass, compacts again and right-pads to length 4; on
the spec's concrete rows it yields `([4,4,0,0], 8)`, `([4,2,0,0], 4)` and
`([8,8,0,0], 16)`. -/
theorem claim_C2_moveRowLeft_examples :
    moveRowLeft [2, 2, 2, 2] = ([4, 4, 0, 0], 8) ∧
    moveRowLeft [2, 0, 2, 2] = ([4, 2, 0, 0], 4) ∧
    moveRowLeft [4, 4, 4, 4] = ([8, 8, 0, 0], 16) :=
  ⟨rfl, rfl, rfl⟩

/-! ### Claim C3 -/

/-- Claim C3: mass invariant — `moveRowLeft` preserves the row sum, every
direction of `moveDir` preserves the total of all cells of a 4×4 board,
and `addRandomTile` adds exactly the spawned value (2 or 4) when an empty
cell exists and 0 on a full board. -/
theorem claim_C3_mass_invariant :
    (∀ row : List Nat, (moveRowLeft row).1.sum = row.sum) ∧
    (∀ (b : Board) (d : Dir), isBoard4 b →
      totalSum (moveDir d b).1 = totalSum b) ∧
    (∀ (b : Board) (k : Nat) (t : Bool), emptyCells b ≠ [] →
      totalSum (addRandomTile b k t) = totalSum b + spawnValue t) ∧
    (∀ (b : Board) (k : Nat) (t : Bool), emptyCells b = [] →
      totalSum (addRandomTile b k t) = totalSum b) := by
  refine ⟨moveRowLeft_sum, fun b d h => moveDir_sum d h, addRandomTile_sum,
    fun b k t h => ?_⟩
  rw [addRandomTile_full b k t h]

/-- Claim C3 witnessed on concrete boards: an up-move on a mergeable
board, a spawn on a board with empty cells, and a spawn on a full board. -/
theorem claim_C3_mass_invariant_witness :
    totalSum (moveDir Dir.up exBoard).1 = totalSum exBoard ∧
    totalSum (addRandomTile exBoard 5 false) = totalSum exBoard + spawnValue false ∧
    totalSum (addRandomTile fullBoard 0 true) = totalSum fullBoard :=
  ⟨claim_C3_mass_invariant.2.1 exBoard Dir.up (by decide),
   claim_C3_mass_invariant.2.2.1 exBoard 5 false (by decide),
   claim_C3_mass_invariant.2.2.2 fullBoard 0 true (by decide)⟩

/-! ### Claim C8 -/

/-- Claim C8: on a board with no empty cell `addRandomTile` returns the
board unchanged (no failure); on a board with exactly one empty cell,
for every random draw it fills precisely that cell with the spawned
value (2 or 4), leaves every other cell alone, and the result has zero
empty cells. -/
theorem claim_C8_spawn_correct :
    (∀ (b : Board) (k : Nat) (t : Bool), emptyCells b = [] →
      addRandomTile b k t = b) ∧
    (∀ (b : Board) (i j k : Nat) (t : Bool), emptyCells b = [(i, j)] →
      emptyCells (addRandomTile b k t) = [] ∧
      cell (addRandomTile b k t) i j = spawnValue t ∧
      (∀ i' j', ¬(i' = i ∧ j' = j) →
        cell (addRandomTile b k t) i' j' = cell b i' j')) := by
  constructor
  · exact addRandomTile_full
  · intro b i j k t h
    have hne : emptyCells b ≠ [] := by rw [h]; simp
    obtain ⟨p, hp, _, heq⟩ := addRandomTile_pick b k t hne
    rw [h] at hp
    simp only [List.mem_singleton] at hp
    subst hp
    have hmem : (i, j) ∈ emptyCells b := by rw [h]; simp
    obtain ⟨hi, hj, h0⟩ := mem_emptyCells.mp hmem
    have hv : spawnValue t ≠ 0 := by cases t <;> simp [spawnValue]
    refine ⟨?_, ?_, ?_⟩
    · rw [heq, List.eq_nil_iff_forall_not_mem]
      rintro ⟨i', j'⟩ hmem'
      obtain ⟨hi', hj', h0'⟩ := mem_emptyCells.mp hmem'
      rw [setCell_length] at hi'
      rw [setCell_row_length] at hj'
      have h0c : cell (setCell b i j (spawnValue t)) i' j' = 0 := h0'
      by_cases hcond : i = i' ∧ j = j' ∧ i < b.length ∧
          j < (b.getD i []).length
      · rw [cell_setCell, if_pos hcond] at h0c
        exact hv h0c
      · rw [cell_setCell, if_neg hcond] at h0c
        have hmem2 : (i', j') ∈ emptyCells b :=
          mem_emptyCells.mpr ⟨hi', hj', h0c⟩
        rw [h] at hmem2
        simp only [List.mem_singleton, Prod.mk.injEq] at hmem2
        exact hcond ⟨hmem2.1.symm, hmem2.2.symm, hi, hj⟩
    · rw [heq, cell_setCell, if_pos ⟨rfl, rfl, hi, hj⟩]
    · intro i' j' hne'
      rw [heq, cell_setCell,
        if_neg (fun hc => hne' ⟨hc.1.symm, hc.2.1.symm⟩)]

/-- Claim C8 witnessed on the board whose only empty cell is (3,3). -/
theorem claim_C8_spawn_correct_witness :
    emptyCells oneEmptyBoard = [(3, 3)] ∧
    emptyCells (addRandomTile oneEmptyBoard 7 true) = [] ∧
    cell (addRandomTile oneEmptyBoard 7 true) 3 3 = spawnValue true :=
  ⟨by decide,
   (claim_C8_spawn_correct.2 oneEmptyBoard 3 3 7 true (by decide)).1,
   (claim_C8_spawn_correct.2 oneEmptyBoard 3 3 7 true (by decide)).2.1⟩

/-! ### Claim C4 -/

/-- Claim C4: `isGameOver` is true exactly when no cell is 0 and no two
horizontally or vertically adjacent cells hold equal non-zero values;
consequently it is false on every board containing an empty cell, and
diagonal adjacency plays no role. -/
theorem claim_C4_isGameOver_iff (b : Board) :
    isGameOver b = true ↔ noEmpty b ∧ ¬ hasAdjPair b := by
  unfold isGameOver noEmpty hasAdjPair
  simp only [GRID_SIZE]
  split_ifs with h1 h2
  · simp only [List.any_eq_true, List.mem_range, beq_iff_eq] at h1
    obtain ⟨i, hi, j, hj, h0⟩ := h1
    simp only [false_iff, not_and, not_not]
    intro hne
    exact absurd h0 (hne i hi j hj)
  · simp only [List.any_eq_true, List.mem_range, beq_iff_eq] at h1
    simp only [List.any_eq_true, List.mem_range, Bool.or_eq_true,
      Bool.and_eq_true, decide_eq_true_eq, beq_iff_eq] at h2
    push_neg at h1
    simp only [false_iff, not_and, not_not]
    intro hne
    obtain ⟨i, hi, j, hj, hpair⟩ := h2
    rcases hpair with ⟨hj3, heq⟩ | ⟨hi3, heq⟩
    · exact Or.inl ⟨i, hi, j, by omega, hne i hi j hj, heq⟩
    · exact Or.inr ⟨j, hj, i, by omega, hne i hi j hj, heq⟩
  · simp only [List.any_eq_true, List.mem_range, beq_iff_eq] at h1
    simp only [List.any_eq_true, List.mem_range, Bool.or_eq_true,
      Bool.and_eq_true, decide_eq_true_eq, beq_iff_eq] at h2
    push_neg at h1 h2
    simp only [true_iff]
    refine ⟨h1, ?_⟩
    rintro (⟨i, hi, j, hj1, _, heq⟩ | ⟨j, hj, i, hi1, _, heq⟩)
    · exact (h2 i hi j (by omega)).1 (by omega) heq
    · exact (h2 i (by omega) j hj).2 (by omega) heq

/-! ### Claim C5 -/

/-- Claim C5: in a non-terminal controller state, a direction whose move
returns a board cell-wise equal to the current board leaves the whole
state unchanged and spawns no tile. -/
theorem claim_C5_noop_isolation (s : GState) (d : Dir) (k : Nat) (t : Bool)
    (hg : s.gameOver = false)
    (hc : arraysEqual s.board (moveDir d s.board).1 = true) :
    handleMove s d k t = (s, false) := by
  unfold handleMove
  simp [hg, hc]

/-- Claim C5 witnessed on a fully left-compacted board with no merges. -/
theorem claim_C5_noop_isolation_witness :
    handleMove ⟨noopBoard, 3, 7, false⟩ Dir.left 0 true =
      (⟨noopBoard, 3, 7, false⟩, false) :=
  claim_C5_noop_isolation ⟨noopBoard, 3, 7, false⟩ Dir.left 0 true rfl
    (by decide)

/-! ### Claim C7 -/

theorem step_bestScore_mono (s : GState) (e : Event) :
    s.bestScore ≤ (step s e).bestScore := by
  cases e with
  | reset k1 k2 t1 t2 => exact le_refl _
  | move d k t =>
    show s.bestScore ≤ (handleMove s d k t).1.bestScore
    unfold handleMove
    by_cases hg : s.gameOver = true
    · simp [hg]
    · by_cases hc : arraysEqual s.board (moveDir d s.board).1 = true
      · simp [hg, hc]
      · simp only [hg, hc, if_false, Bool.false_eq_true]
        split <;> omega

/-- Claim C7: over every sequence of move and reset events BestScore never
decreases; an accepted move sets it to the maximum of the old BestScore
and the new score, and `newGame` resets the score to 0 while leaving
BestScore unchanged. -/
theorem claim_C7_bestScore_monotone :
    (∀ (evs : List Event) (s : GState),
      s.bestScore ≤ (runEvents s evs).bestScore) ∧
    (∀ (s : GState) (k1 k2 : Nat) (t1 t2 : Bool),
      (newGame s k1 k2 t1 t2).score = 0 ∧
      (newGame s k1 k2 t1 t2).bestScore = s.bestScore) ∧
    (∀ (s : GState) (d : Dir) (k : Nat) (t : Bool),
      s.gameOver = false →
      arraysEqual s.board (moveDir d s.board).1 = false →
      (handleMove s d k t).1.bestScore =
        max s.bestScore (s.score + (moveDir d s.board).2)) := by
  refine ⟨?_, fun s k1 k2 t1 t2 => ⟨rfl, rfl⟩, ?_⟩
  · intro evs
    induction evs with
    | nil => intro s; exact le_refl _
    | cons e es ih =>
      intro s
      exact le_trans (step_bestScore_mono s e) (ih (step s e))
  · intro s d k t hg hc
    unfold handleMove
    simp only [hg, hc, if_false, Bool.false_eq_true]
    split <;> omega

/-- Claim C7 witnessed: an accepted left move from best 0 and score 0
lands on the max of old best and new score. -/
theorem claim_C7_bestScore_monotone_witness :
    (handleMove ⟨exBoard, 0, 0, false⟩ Dir.left 0 true).1.bestScore =
      max 0 (0 + (moveDir Dir.left exBoard).2) :=
  claim_C7_bestScore_monotone.2.2 ⟨exBoard, 0, 0, false⟩ Dir.left 0 true rfl
    (by decide)

/-! ### arraysEqual characterization -/

theorem bind_get?_eq_some (b : Board) (i j v : Nat) :
    ((b.get? i).bind (fun row => row.get? j)) = some v ↔
      i < b.length ∧ j < (b.getD i []).length ∧
        (b.getD i []).getD j 0 = v := by
  simp only [List.get?_eq_getElem?]
  constructor
  · intro h
    rcases hb : b[i]? with _ | row
    · rw [hb] at h; simp at h
    · rw [hb] at h
      rw [Option.some_bind] at h
      have hi : i < b.length := by
        by_contra hn
        rw [List.getElem?_eq_none (Nat.le_of_not_lt hn)] at hb
        cases hb
      have hrow : b.getD i [] = row := by
        rw [List.getD_eq_getElem?_getD, hb]; rfl
      obtain ⟨hj, hv⟩ := List.getElem?_eq_some.mp h
      refine ⟨hi, by rw [hrow]; exact hj, ?_⟩
      rw [hrow, List.getD_eq_getElem row 0 hj, hv]
  · rintro ⟨hi, hj, hv⟩
    rw [List.getElem?_eq_getElem hi, Option.some_bind]
    have hrow : b.getD i [] = b[i] := List.getD_eq_getElem b [] hi
    rw [hrow] at hj hv
    rw [List.getD_eq_getElem _ 0 hj] at hv
    rw [List.getElem?_eq_getElem hj, hv]

theorem arraysEqual_iff (a b : Board) :
    arraysEqual a b = true ↔
      ∀ i < a.length, ∀ j < (a.getD i []).length,
        i < b.length ∧ j < (b.getD i []).length ∧
          (b.getD i []).getD j 0 = (a.getD i []).getD j 0 := by
  unfold arraysEqual
  simp only [List.all_eq_true, List.mem_range, beq_iff_eq]
  constructor
  · intro h i hi j hj
    exact (bind_get?_eq_some b i j _).mp (h i hi j hj)
  · intro h i hi j hj
    exact (bind_get?_eq_some b i j _).mpr (h i hi j hj)

theorem arraysEqual_eq {a b : Board} (ha : isBoard4 a) (hb : isBoard4 b)
    (h : arraysEqual a b = true) : a = b := by
  rw [arraysEqual_iff] at h
  apply List.ext_getElem (by rw [ha.1, hb.1])
  intro i hia hib
  apply List.ext_getElem
  · rw [ha.2 _ (List.getElem_mem hia), hb.2 _ (List.getElem_mem hib)]
  · intro j hja hjb
    have hj4 : j < (a.getD i []).length := by
      rw [List.getD_eq_getElem a [] hia]; exact hja
    obtain ⟨hi', hj', hv⟩ := h i hia j hj4
    rw [List.getD_eq_getElem a [] hia, List.getD_eq_getElem b [] hi'] at hv
    rw [List.getD_eq_getElem _ 0 hja] at hv
    rw [List.getD_eq_getElem _ 0 (by rw [← List.getD_eq_getElem b [] hi']; exact hj')] at hv
    exact hv.symm

/-! ### Claim C6 -/

/-- Claim C6: no-op detection is idempotent — if the move for `d` leaves a
4×4 board cell-wise equal to itself, it is actually equal, and applying
the same move again is again a no-op with `changed == false`. -/
theorem claim_C6_noop_stability (b : Board) (d : Dir) (h4 : isBoard4 b)
    (h : arraysEqual b (moveDir d b).1 = true) :
    (moveDir d b).1 = b ∧
    (moveDir d ((moveDir d b).1)).1 = (moveDir d b).1 ∧
    arraysEqual ((moveDir d b).1)
      ((moveDir d ((moveDir d b).1)).1) = true := by
  have heq : b = (moveDir d b).1 := arraysEqual_eq h4 (isBoard4_moveDir d h4) h
  refine ⟨heq.symm, ?_, ?_⟩
  · rw [← heq]
    exact heq.symm
  · rw [← heq]
    exact h

/-- Claim C6 witnessed on a fully left-compacted board with no merges. -/
theorem claim_C6_noop_stability_witness :
    (moveDir Dir.left noopBoard).1 = noopBoard ∧
    (moveDir Dir.left ((moveDir Dir.left noopBoard).1)).1 =
      (moveDir Dir.left noopBoard).1 ∧
    arraysEqual ((moveDir Dir.left noopBoard).1)
      ((moveDir Dir.left ((moveDir Dir.left noopBoard).1)).1) = true :=
  claim_C6_noop_stability noopBoard Dir.left (by decide) (by decide)

/-! ### Cell-value validity lemmas -/

theorem validCell_zero : validCell 0 := Or.inl rfl

theorem validCell_spawn (t : Bool) : validCell (spawnValue t) := by
  cases t
  · exact Or.inr ⟨2, by omega, rfl⟩
  · exact Or.inr ⟨1, le_refl 1, rfl⟩

theorem validCell_double {v : Nat} (h : validCell v) : validCell (2 * v) := by
  rcases h with rfl | ⟨k, hk, rfl⟩
  · exact Or.inl (by omega)
  · exact Or.inr ⟨k + 1, by omega, by ring⟩

theorem getD_mem_or_eq {α : Type _} (l : List α) (n : Nat) (d : α) :
    l.getD n d ∈ l ∨ l.getD n d = d := by
  by_cases h : n < l.length
  · exact Or.inl (getD_mem l n d h)
  · right
    rw [List.getD_eq_getElem?_getD, List.getElem?_eq_none (Nat.le_of_not_lt h)]
    rfl

theorem validList_mergePass : ∀ l : List Nat, (∀ v ∈ l, validCell v) →
    ∀ v ∈ (mergePass l).1, validCell v
  | [], _ => by simp [mergePass]
  | [a], h => by simpa [mergePass] using h
  | a :: b :: rest, h => fun v hv => by
    by_cases hab : a = b
    · subst hab
      simp only [mergePass, eq_self_iff_true, if_true, List.mem_cons] at hv
      rcases hv with rfl | rfl | hv
      · exact validCell_double (h _ (by simp))
      · exact validCell_zero
      · exact validList_mergePass rest (fun x hx => h x (by simp [hx])) v hv
    · simp only [mergePass, if_neg hab, List.mem_cons] at hv
      rcases hv with rfl | hv
      · exact h v (by simp)
      · exact validList_mergePass (b :: rest)
          (fun x hx => h x (by simp [List.mem_cons] at hx ⊢; tauto)) v hv

theorem validList_moveRowLeft {r : List Nat} (h : ∀ v ∈ r, validCell v) :
    ∀ v ∈ (moveRowLeft r).1, validCell v := by
  intro v hv
  unfold moveRowLeft at hv
  simp only [List.mem_append] at hv
  rcases hv with hv | hv
  · exact validList_mergePass _
      (fun x hx => h x (List.mem_of_mem_filter hx)) v
      (List.mem_of_mem_filter hv)
  · rw [List.eq_of_mem_replicate hv]
    exact validCell_zero

theorem validBoard_moveLeft {b : Board} (h : validBoard b) :
    validBoard (moveLeft b).1 := by
  rw [moveLeft_boards]
  intro r hr
  simp only [List.mem_map] at hr
  obtain ⟨r0, hr0, rfl⟩ := hr
  exact validList_moveRowLeft (h r0 hr0)

theorem validBoard_moveRight {b : Board} (h : validBoard b) :
    validBoard (moveRight b).1 := by
  rw [moveRight_boards]
  intro r hr
  simp only [List.mem_map] at hr
  obtain ⟨r0, hr0, rfl⟩ := hr
  intro v hv
  rw [List.mem_reverse] at hv
  exact validList_moveRowLeft
    (fun x hx => h r0 hr0 x (List.mem_reverse.mp hx)) v hv

theorem validBoard_transpose {b : Board} (h : validBoard b) :
    validBoard (transpose b) := by
  intro r hr
  unfold transpose at hr
  simp only [List.mem_map] at hr
  obtain ⟨i, _, rfl⟩ := hr
  intro v hv
  simp only [List.mem_map] at hv
  obtain ⟨row, hrow, rfl⟩ := hv
  rcases getD_mem_or_eq row i 0 with hm | he
  · exact h row hrow _ hm
  · rw [he]
    exact validCell_zero

theorem validBoard_moveDir {b : Board} (d : Dir) (h : validBoard b) :
    validBoard (moveDir d b).1 := by
  cases d with
  | left => exact validBoard_moveLeft h
  | right => exact validBoard_moveRight h
  | up => exact validBoard_transpose (validBoard_moveLeft (validBoard_transpose h))
  | down => exact validBoard_transpose (validBoard_moveRight (validBoard_transpose h))

theorem validBoard_addRandomTile {b : Board} (k : Nat) (t : Bool)
    (h : validBoard b) : validBoard (addRandomTile b k t) := by
  by_cases he : emptyCells b = []
  · rw [addRandomTile_full b k t he]
    exact h
  · obtain ⟨p, hp, _, heq⟩ := addRandomTile_pick b k t he
    obtain ⟨hi, _, _⟩ := mem_emptyCells.mp hp
    rw [heq]
    unfold setCell
    intro r hr
    rcases List.mem_or_eq_of_mem_set hr with hr | rfl
    · exact h r hr
    · intro v hv
      rcases List.mem_or_eq_of_mem_set hv with hv | rfl
      · exact h _ (getD_mem b p.1 [] hi) v hv
      · exact validCell_spawn t

theorem validBoard_empty : validBoard emptyBoard := by
  intro r hr v hv
  rw [List.eq_of_mem_replicate hr] at hv
  rw [List.eq_of_mem_replicate hv]
  exact validCell_zero

theorem validBoard_applyOps : ∀ (ops : List Op) (b : Board),
    validBoard b → validBoard (applyOps b ops)
  | [], _, h => h
  | o :: os, b, h => by
    apply validBoard_applyOps os
    cases o with
    | move d => exact validBoard_moveDir d h
    | spawn k t => exact validBoard_addRandomTile k t h

/-! ### Claim C9 -/

/-- Claim C9: every board reachable from `getInitialBoard` by any sequence
of move and `addRandomTile` operations has all cells 0 or a power of two
that is at least 2. -/
theorem claim_C9_values_powers_of_two (ops : List Op) (k1 k2 : Nat)
    (t1 t2 : Bool) :
    validBoard (applyOps (getInitialBoard k1 k2 t1 t2) ops) := by
  apply validBoard_applyOps
  unfold getInitialBoard
  exact validBoard_addRandomTile _ _ (validBoard_addRandomTile _ _ validBoard_empty)

/-! ### Merge-pass counting lemmas: a positive score strictly shrinks the
number of non-zero entries of a line. -/

theorem mergePass_nz_le (l : List Nat) :
    ((mergePass l).1.filter (fun v => v != 0)).length ≤ l.length :=
  le_trans (List.length_filter_le _ _) (le_of_eq (mergePass_length l))

theorem mergePass_nz_lt : ∀ l : List Nat, (∀ v ∈ l, v ≠ 0) →
    0 < (mergePass l).2 →
    ((mergePass l).1.filter (fun v => v != 0)).length < l.length
  | [], _, hs => by simp [mergePass] at hs
  | [_], _, hs => by simp [mergePass] at hs
  | a :: b :: rest, hnz, hs => by
    by_cases hab : a = b
    · subst hab
      simp only [mergePass, eq_self_iff_true, if_true]
      have hle := mergePass_nz_le rest
      have hcalc : ((2 * a :: 0 :: (mergePass rest).1).filter
          (fun v => v != 0)).length ≤
          1 + ((mergePass rest).1.filter (fun v => v != 0)).length := by
        simp only [List.filter_cons]
        split <;> split <;> simp_all
        all_goals omega
      simp only [List.length_cons]
      omega
    · simp only [mergePass, if_neg hab] at hs ⊢
      have ih := mergePass_nz_lt (b :: rest)
        (fun x hx => hnz x (by simp [List.mem_cons] at hx ⊢; tauto)) hs
      have hcalc : ((a :: (mergePass (b :: rest)).1).filter
          (fun v => v != 0)).length ≤
          1 + ((mergePass (b :: rest)).1.filter (fun v => v != 0)).length := by
        simp only [List.filter_cons]
        split <;> simp
        all_goals omega
      simp only [List.length_cons] at ih ⊢
      omega

theorem moveRowLeft_changed {r : List Nat} (h : 0 < (moveRowLeft r).2) :
    (moveRowLeft r).1 ≠ r := by
  intro heq
  have hnz : ∀ v ∈ r.filter (fun v => v != 0), v ≠ 0 := by
    intro v hv
    simpa using (List.mem_filter.mp hv).2
  have hs : 0 < (mergePass (r.filter (fun v => v != 0))).2 := h
  have hlt := mergePass_nz_lt _ hnz hs
  have hfo : (moveRowLeft r).1.filter (fun v => v != 0) =
      (mergePass (r.filter (fun v => v != 0))).1.filter (fun v => v != 0) := by
    show (((mergePass (r.filter (fun v => v != 0))).1.filter (fun v => v != 0))
        ++ List.replicate _ 0).filter (fun v => v != 0) = _
    rw [List.filter_append]
    have h1 : ((mergePass (r.filter (fun v => v != 0))).1.filter
        (fun v => v != 0)).filter (fun v => v != 0) =
        (mergePass (r.filter (fun v => v != 0))).1.filter (fun v => v != 0) :=
      List.filter_eq_self.mpr (fun a ha => (List.mem_filter.mp ha).2)
    have h2 : (List.replicate (GRID_SIZE -
        ((mergePass (r.filter (fun v => v != 0))).1.filter
          (fun v => v != 0)).length) 0).filter (fun v => v != 0) = [] := by
      simp
    rw [h1, h2, List.append_nil]
  have hlen := congrArg (fun l => (l.filter (fun v => v != 0)).length) heq
  simp only at hlen
  rw [hfo] at hlen
  omega

theorem map_eq_self {α : Type _} {f : α → α} : ∀ {l : List α},
    l.map f = l → ∀ x ∈ l, f x = x := by
  intro l
  induction l with
  | nil => intro _ x hx; cases hx
  | cons a t ih =>
    intro h x hx
    simp only [List.map_cons, List.cons.injEq] at h
    rcases List.mem_cons.mp hx with rfl | hx2
    · exact h.1
    · exact ih h.2 x hx2

theorem moveLeft_score_rows (b : Board) :
    (moveLeft b).2 = (b.map (fun r => (moveRowLeft r).2)).sum := by
  show (List.map Prod.snd (List.map moveRowLeft b)).sum = _
  rw [List.map_map]
  rfl

theorem moveRight_score_rows (b : Board) :
    (moveRight b).2 = (b.map (fun r => (moveRowLeft r.reverse).2)).sum := by
  show (List.map Prod.snd (List.map (fun r => moveRowLeft r.reverse) b)).sum = _
  rw [List.map_map]
  rfl

theorem moveLeft_noop_score {b : Board} (h : (moveLeft b).1 = b) :
    (moveLeft b).2 = 0 := by
  rw [moveLeft_boards] at h
  rw [moveLeft_score_rows]
  apply List.sum_eq_zero
  intro x hx
  simp only [List.mem_map] at hx
  obtain ⟨r, hr, rfl⟩ := hx
  by_contra hnzero
  exact moveRowLeft_changed (Nat.pos_of_ne_zero hnzero) (map_eq_self h r hr)

theorem moveRight_noop_score {b : Board} (h : (moveRight b).1 = b) :
    (moveRight b).2 = 0 := by
  rw [moveRight_boards] at h
  rw [moveRight_score_rows]
  apply List.sum_eq_zero
  intro x hx
  simp only [List.mem_map] at hx
  obtain ⟨r, hr, rfl⟩ := hx
  by_contra hnzero
  have h1 := map_eq_self h r hr
  have h2 := congrArg List.reverse h1
  rw [List.reverse_reverse] at h2
  exact moveRowLeft_changed (Nat.pos_of_ne_zero hnzero) h2

/-! ### Claim C10 -/

/-- Claim C10: a move that earns a positive score always changes the
board — equivalently a move whose result equals the input board has score
delta 0 — so the `changed` guard in `handleMove` can never discard points
earned by a merge. -/
theorem claim_C10_score_pos_changed (b : Board) (d : Dir) (h4 : isBoard4 b)
    (h : 0 < (moveDir d b).2) : (moveDir d b).1 ≠ b := by
  intro heq
  cases d with
  | left =>
    have h' : 0 < (moveLeft b).2 := h
    have h0 := moveLeft_noop_score heq
    omega
  | right =>
    have h' : 0 < (moveRight b).2 := h
    have h0 := moveRight_noop_score heq
    omega
  | up =>
    have hml : isBoard4 (moveLeft (transpose b)).1 :=
      isBoard4_moveLeft (isBoard4_transpose h4)
    have hc : transpose (transpose ((moveLeft (transpose b)).1)) = transpose b :=
      congrArg transpose heq
    rw [transpose_transpose hml] at hc
    have h' : 0 < (moveLeft (transpose b)).2 := h
    have h0 := moveLeft_noop_score hc
    omega
  | down =>
    have hml : isBoard4 (moveRight (transpose b)).1 :=
      isBoard4_moveRight (isBoard4_transpose h4)
    have hc : transpose (transpose ((moveRight (transpose b)).1)) = transpose b :=
      congrArg transpose heq
    rw [transpose_transpose hml] at hc
    have h' : 0 < (moveRight (transpose b)).2 := h
    have h0 := moveRight_noop_score hc
    omega

/-- Claim C10 witnessed: the left move on the spec's example board earns
4 points and changes the board. -/
theorem claim_C10_score_pos_changed_witness :
    0 < (moveDir Dir.left exBoard).2 ∧ (moveDir Dir.left exBoard).1 ≠ exBoard :=
  ⟨by decide,
   claim_C10_score_pos_changed exBoard Dir.left (by decide) (by decide)⟩

end Game2048
